import Mathlib

/-!
Shallow embedding of the options-chain logic of `yfinance/ticker.py`
(class `Ticker`: `_download_options`, `_options2df`, `option_chain`,
`options`), together with theorems checking the specification's claims.

Python dictionaries are modelled as insertion-ordered association lists,
JSON cell values as an inductive `Val`, exceptions as an error type
threaded through `Except`, and the single HTTP round trip as a value read
from an environment; each call reports the list of HTTP requests it
issued so that caching claims can be stated as "no request was made".
-/

namespace YF

/-- A JSON-ish scalar cell value as it appears in an option contract
record, plus the pandas timestamp values produced by `_options2df`
(`tsNaive` models a timezone-naive `pd.Timestamp`, `tsTz` a localized
one). -/
inductive Val where
  | int (n : Int)
  | float (q : Rat)
  | str (s : String)
  | bool (b : Bool)
  | tsNaive (epoch : Int)
  | tsTz (epoch : Int) (tz : String)
  deriving DecidableEq, Repr

/-- One option contract record: a JSON object, i.e. a Python dict with
string keys (unique, insertion ordered). -/
abbrev Record := List (String × Val)

/-- Dict field access `r[c]` as used by pandas when assembling a
DataFrame from a list of dicts: the value at key `c`, if present. -/
def cell (r : Record) (c : String) : Option Val :=
  (r.find? (fun p => p.1 = c)).map Prod.snd

/-- One per-expiration payload from the provider's `options` list:
`{"calls": [...], "puts": [...]}`. -/
structure Batch where
  calls : List Record
  puts : List Record
  deriving DecidableEq, Repr

/-- The provider's `optionChain.result[i]` element when it is a truthy,
well-shaped object: `{"expirationDates": [epoch...], "options": [...]}`.
A falsy element (`null` or `{}`) is modelled as `none` at the use site. -/
structure OCResult where
  expirationDates : List Int
  options : List Batch
  deriving DecidableEq, Repr

/-- The parsed JSON body of the options endpoint response:
`{"optionChain": {"result": [...]}}`.  Each list element is `some r`
for a truthy result object and `none` for a falsy one. -/
structure Resp where
  result : List (Option OCResult)
  deriving DecidableEq, Repr

/-- Python exceptions that can escape the modelled code paths. -/
inductive PyErr where
  | indexError
  | tickerException (msg : String)
  | valueError (msg : String)
  deriving DecidableEq, Repr

/-- A Python value acceptable as the `proxy` argument: a bare URL string
or a dict (e.g. keyed by scheme). -/
inductive PVal where
  | str (s : String)
  | dict (entries : List (String × String))
  deriving DecidableEq, Repr

/-- The normalized proxies mapping handed to `http.get`: either absent
or a dict mapping `"https"` to a value (the wrapped value is a `PVal`
because the code can wrap a whole dict). -/
inductive ProxyConf where
  | none
  | https (v : PVal)
  deriving DecidableEq, Repr

/-- One HTTP GET issued by the model: the URL and the proxies mapping
passed to the session. -/
structure Request where
  url : String
  proxies : ProxyConf
  deriving DecidableEq, Repr

/-- The mutable per-`Ticker` state: the symbol, the base URL (from
`TickerBase`), the Options Cache `self._expirations` (an
insertion-ordered dict from `YYYY-MM-DD` label to epoch seconds) and the
retained batch list `self._options`. -/
structure TickerState where
  ticker : String
  baseUrl : String
  expirations : List (String × Int)
  options : List Batch
  deriving DecidableEq, Repr

/-- The ambient world: the current clock (`time.time()`) and the JSON
body the provider returns to the single options request. -/
structure Env where
  now : Int
  resp : Resp
  deriving DecidableEq, Repr

/-- `(exp - time.time()) > (3600 * 24 * 365 * 3)`: the expiration lies
more than three years in the future (line 67). -/
def tooFar (now exp : Int) : Bool :=
  exp - now > 3600 * 24 * 365 * 3

/-- Days-to-civil-date conversion (proleptic Gregorian), used to model
`datetime.datetime.fromtimestamp(exp)`'s date fields; the model fixes
the process timezone to UTC.  Returns (year, month, day). -/
def civilFromDays (z : Int) : Int × Nat × Nat :=
  let z' := z + 719468
  let era := Int.fdiv z' 146097
  let doe := (z' - era * 146097).toNat
  let yoe := (doe - doe / 1460 + doe / 36524 - doe / 146096) / 365
  let doy := doe - (365 * yoe + yoe / 4 - yoe / 100)
  let mp := (5 * doy + 2) / 153
  let d := doy - (153 * mp + 2) / 5 + 1
  let m := if mp < 10 then mp + 3 else mp - 9
  let y := (yoe : Int) + era * 400 + (if m ≤ 2 then 1 else 0)
  (y, m, d)

/-- Left-pad the decimal rendering of `n` with zeroes to `w` digits. -/
def padNat (w : Nat) (n : Nat) : String :=
  let s := toString n
  (String.mk (List.replicate (w - s.length) '0')) ++ s

/-- `datetime.datetime.fromtimestamp(exp).strftime('%Y-%m-%d')`
(line 69), with the process timezone fixed to UTC: the calendar-date
label of an epoch-seconds timestamp. -/
def epochToLabel (exp : Int) : String :=
  let c := civilFromDays (Int.fdiv exp 86400)
  padNat 4 c.1.toNat ++ "-" ++ padNat 2 c.2.1 ++ "-" ++ padNat 2 c.2.2

/-- Python dict assignment `d[k] = v`: update the value in place when
the key exists (keeping its position), else append the new entry. -/
def dictInsert (d : List (String × Int)) (k : String) (v : Int) :
    List (String × Int) :=
  if d.any (fun p => p.1 = k) then
    d.map (fun p => if p.1 = k then (k, v) else p)
  else
    d ++ [(k, v)]

/-- The cache-population loop of `_download_options` (lines 65-69): for
each provider expiration in order, skip it when it is more than three
years out, otherwise enter it into `self._expirations` keyed by its
date label. -/
def populateExpirations (now : Int) (ds : List Int)
    (d : List (String × Int)) : List (String × Int) :=
  ds.foldl (fun acc exp =>
    if tooFar now exp then acc else dictInsert acc (epochToLabel exp) exp) d

/-- Render one cell value, standing in for Python's `repr` of the
corresponding JSON-derived value. -/
def valToString : Val → String
  | Val.int n => toString n
  | Val.float q => toString q
  | Val.str s => "'" ++ s ++ "'"
  | Val.bool b => if b then "True" else "False"
  | Val.tsNaive e => "Timestamp(" ++ toString e ++ ")"
  | Val.tsTz e tz => "Timestamp(" ++ toString e ++ ", tz='" ++ tz ++ "')"

/-- Render a record as a Python dict literal. -/
def recordToString (r : Record) : String :=
  "\x7b" ++ String.intercalate ", "
    (r.map (fun p => "'" ++ p.1 ++ "': " ++ valToString p.2)) ++ "\x7d"

/-- Render one element of the `options` list. -/
def batchToString (b : Batch) : String :=
  "\x7b'calls': [" ++ String.intercalate ", " (b.calls.map recordToString) ++
    "], 'puts': [" ++ String.intercalate ", " (b.puts.map recordToString) ++ "]\x7d"

/-- Render one element of the `result` list. -/
def ocResultToString : Option OCResult → String
  | Option.none => "\x7b\x7d"
  | Option.some r =>
    "\x7b'expirationDates': [" ++
      String.intercalate ", " (r.expirationDates.map toString) ++
      "], 'options': [" ++
      String.intercalate ", " (r.options.map batchToString) ++ "]\x7d"

/-- A rendering of the raw response used when it is interpolated into an
exception message; stands in for Python's `str(r)`. -/
def respToString (r : Resp) : String :=
  "\x7b'optionChain': \x7b'result': [" ++
    String.intercalate ", " (r.result.map ocResultToString) ++ "]\x7d\x7d"

/-- Proxy normalization in `_download_options` (lines 54-57): unwrap a
dict already carrying an `"https"` key, then wrap the value as
`{"https": proxy}`. -/
def normalizeProxy : Option PVal → ProxyConf
  | Option.none => ProxyConf.none
  | Option.some p =>
    let p' : PVal :=
      match p with
      | PVal.dict es =>
        match es.find? (fun q => q.1 = "https") with
        | Option.some q => PVal.str q.2
        | Option.none => PVal.dict es
      | x => x
    ProxyConf.https p'

/-- The options endpoint URL (line 60): dots in the symbol are replaced
with dashes in the URL path only. -/
def buildOptionsUrl (st : TickerState) : String :=
  st.baseUrl ++ "/v7/finance/options/" ++
    (st.ticker.replace "." "-") ++ "?getAllData=true"

/-- The message of the `TickerException` raised on a falsy
`result[0]` (line 72). -/
def emptyRespMsg (ticker : String) (r : Resp) : String :=
  "Options response empty for ticker " ++ ticker ++ ": " ++ respToString r

/-- The message of the `TickerException` raised when `self._options` is
still empty after the fetch branch (line 75). -/
def emptyOptionsMsg (ticker : String) : String :=
  "Options empty for ticker " ++ ticker

/-- The tail of `_download_options` (lines 74-77): raise when
`self._options` is empty, otherwise return `self._options[0]` for the
default call or the batch at the position of `date` among the cache's
values.  `list.index` raises `ValueError` when the value is absent and
list subscripting raises `IndexError` when out of range. -/
def selectBatch (st : TickerState) (date : Option Int) : Except PyErr Batch :=
  if st.options.isEmpty then
    Except.error (PyErr.tickerException (emptyOptionsMsg st.ticker))
  else
    match date with
    | Option.none =>
      match st.options.head? with
      | Option.some b => Except.ok b
      | Option.none => Except.error PyErr.indexError
    | Option.some dt =>
      let vals := st.expirations.map Prod.snd
      if vals.contains dt then
        match st.options[vals.indexOf dt]? with
        | Option.some b => Except.ok b
        | Option.none => Except.error PyErr.indexError
      else
        Except.error (PyErr.valueError "x is not in list")

/-- `Ticker._download_options(date, proxy)` (lines 50-77).  Returns the
selected batch (or the escaping exception), the state after the call
(mutations persist even when an exception escapes), and the list of
HTTP requests issued. -/
def downloadOptions (env : Env) (st : TickerState) (date : Option Int)
    (proxy : Option PVal) :
    Except PyErr Batch × TickerState × List Request :=
  if st.options.isEmpty then
    let req : Request := ⟨buildOptionsUrl st, normalizeProxy proxy⟩
    match env.resp.result.head? with
    | Option.none => (Except.error PyErr.indexError, st, [req])
    | Option.some resOpt =>
      match resOpt with
      | Option.none =>
        (Except.error (PyErr.tickerException (emptyRespMsg st.ticker env.resp)),
         st, [req])
      | Option.some result =>
        let st' : TickerState :=
          { st with
            expirations :=
              populateExpirations env.now result.expirationDates st.expirations,
            options := result.options }
        (selectBatch st' date, st', [req])
  else
    (selectBatch st date, st, [])

/-- The fixed column list of `_options2df` (lines 80-94), in source
order. -/
def fixedColumns : List String :=
  ["contractSymbol", "lastTradeDate", "strike", "lastPrice", "bid", "ask",
   "change", "percentChange", "volume", "openInterest", "impliedVolatility",
   "inTheMoney", "contractSize", "currency"]

/-- The column index of `pd.DataFrame(opt)` for a list of dicts: the
union of the records' keys, in order of first appearance. -/
def dfColumns (opt : List Record) : List String :=
  opt.foldl (fun acc r =>
    acc ++ ((r.map Prod.fst).filter (fun k => ¬ acc.contains k))) []

/-- `pd.to_datetime(column, unit='s')` on one cell: an epoch-seconds
integer becomes a timezone-naive timestamp; a missing cell (NaN) stays
missing (NaT). -/
def toDatetimeCell : Option Val → Option Val
  | Option.some (Val.int n) => Option.some (Val.tsNaive n)
  | x => x

/-- `column.tz_localize(tz)` on one cell: a naive timestamp acquires
the timezone; NaT stays NaT. -/
def tzLocalizeCell (tz : String) : Option Val → Option Val
  | Option.some (Val.tsNaive n) => Option.some (Val.tsTz n tz)
  | x => x

/-- The per-cell effect of `_options2df` after the reindex: the
`lastTradeDate` column is parsed to timestamps (lines 96-99, localized
when `tz` is given), every other column is passed through. -/
def transformCell (tz : Option String) (c : String) (v : Option Val) :
    Option Val :=
  if c = "lastTradeDate" then
    match tz with
    | Option.some t => tzLocalizeCell t (toDatetimeCell v)
    | Option.none => toDatetimeCell v
  else v

/-- `Ticker._options2df(opt, tz)` (lines 79-100): build the DataFrame
from the record list, reindex onto the fixed 14 columns (a cell is the
record's value when the column exists in the built frame, else NaN),
then parse/localize the `lastTradeDate` column.  A table is a list of
rows, each row listing the cells in `fixedColumns` order. -/
def options2df (opt : List Record) (tz : Option String) :
    List (List (Option Val)) :=
  let cols := dfColumns opt
  opt.map (fun r =>
    fixedColumns.map (fun c =>
      transformCell tz c (if cols.contains c then cell r c else Option.none)))

/-- The message of the `ValueError` raised by `option_chain` for an
unknown expiration label (lines 109-112); `', '.join(self._expirations)`
joins the dict's keys in insertion order. -/
def unknownExpirationMsg (date : String) (expirations : List (String × Int)) :
    String :=
  "Expiration `" ++ date ++ "` cannot be found. Available expiration are: [" ++
    String.intercalate ", " (expirations.map Prod.fst) ++ "]"

/-- `Ticker.option_chain(date, proxy, tz)` (lines 102-119).  Returns the
(calls, puts) table pair or the escaping exception, the state after the
call, and the HTTP requests issued. -/
def optionChain (env : Env) (st : TickerState) (date : Option String)
    (proxy : Option PVal) (tz : Option String) :
    Except PyErr (List (List (Option Val)) × List (List (Option Val))) ×
      TickerState × List Request :=
  match date with
  | Option.none =>
    let (r, st', reqs) := downloadOptions env st Option.none proxy
    match r with
    | Except.error e => (Except.error e, st', reqs)
    | Except.ok b =>
      (Except.ok (options2df b.calls tz, options2df b.puts tz), st', reqs)
  | Option.some lbl =>
    let (st1, reqs1, err?) :=
      if st.expirations.isEmpty then
        let (r, st', reqs) := downloadOptions env st Option.none Option.none
        match r with
        | Except.error e => (st', reqs, Option.some e)
        | Except.ok _ => (st', reqs, Option.none)
      else (st, [], Option.none)
    match err? with
    | Option.some e => (Except.error e, st1, reqs1)
    | Option.none =>
      match st1.expirations.find? (fun p => p.1 = lbl) with
      | Option.none =>
        (Except.error (PyErr.valueError (unknownExpirationMsg lbl st1.expirations)),
         st1, reqs1)
      | Option.some p =>
        let (r, st2, reqs2) := downloadOptions env st1 (Option.some p.2) proxy
        match r with
        | Except.error e => (Except.error e, st2, reqs1 ++ reqs2)
        | Except.ok b =>
          (Except.ok (options2df b.calls tz, options2df b.puts tz), st2,
           reqs1 ++ reqs2)

/-- `Ticker.options(proxy)` (lines 219-222): populate when the cache is
empty, then return the cache's keys in insertion order. -/
def optionsOp (env : Env) (st : TickerState) (proxy : Option PVal) :
    Except PyErr (List String) × TickerState × List Request :=
  if st.expirations.isEmpty then
    let (r, st', reqs) := downloadOptions env st Option.none proxy
    match r with
    | Except.error e => (Except.error e, st', reqs)
    | Except.ok _ => (Except.ok (st'.expirations.map Prod.fst), st', reqs)
  else
    (Except.ok (st.expirations.map Prod.fst), st, [])

/-- The epoch-seconds value carried by a timestamp cell, used to state
that the `lastTradeDate` conversion is lossless. -/
def tsEpochOf : Option Val → Option Int
  | Option.some (Val.tsNaive e) => Option.some e
  | Option.some (Val.tsTz e _) => Option.some e
  | _ => Option.none

/-- Epoch-order comparison of two timestamp cells, used to state that
the `lastTradeDate` conversion is order-preserving. -/
def tsLe (a b : Option Val) : Bool :=
  match tsEpochOf a, tsEpochOf b with
  | Option.some x, Option.some y => x ≤ y
  | _, _ => false

/-! ### Concrete sample data for witnesses and counterexamples -/

/-- A fresh `Ticker("AAPL")`: both caches empty. -/
def freshState : TickerState :=
  ⟨"AAPL", "https://query2.finance.yahoo.com", [], []⟩

/-- A sample per-expiration batch. -/
def batch1 : Batch :=
  ⟨[[("contractSymbol", Val.str "AAPL240119C00100000"),
     ("strike", Val.int 100), ("lastTradeDate", Val.int 1705000000)]], []⟩

/-- A second, distinguishable sample batch. -/
def batch2 : Batch :=
  ⟨[[("contractSymbol", Val.str "AAPL240216C00200000"),
     ("strike", Val.int 200), ("lastTradeDate", Val.int 1707000000)]], []⟩

/-- A third sample batch, belonging to a far-future expiration. -/
def batch3 : Batch :=
  ⟨[[("contractSymbol", Val.str "AAPL260101C00300000"),
     ("strike", Val.int 300)]], []⟩

/-- A state whose Options Cache holds the two labels of the spec's
invalid-expiration example, with the retained batches. -/
def populatedState : TickerState :=
  ⟨"AAPL", "https://query2.finance.yahoo.com",
   [("2024-01-19", 1705622400), ("2024-02-16", 1708041600)],
   [batch1, batch2]⟩

/-- An environment whose provider payload has two expirations on the
same calendar day (epochs 0 and 3600, both `1970-01-01` UTC) with
distinct batches; the 3-year filter (clock at epoch 0) excludes
nothing. -/
def sameDayEnv : Env :=
  ⟨0, ⟨[Option.some ⟨[0, 3600], [batch1, batch2]⟩]⟩⟩

/-- An environment with two near expirations on distinct days plus one
expiration beyond the 3-year horizon (clock at epoch 0:
`97200000 - 0 > 94608000`). -/
def threeExpEnv : Env :=
  ⟨0, ⟨[Option.some ⟨[0, 86400, 97200000], [batch1, batch2, batch3]⟩]⟩⟩

/-! ### Helper lemmas -/

/-- Once `self._options` is non-empty, `_download_options` skips the
whole fetch branch: it issues no request and leaves the state alone. -/
theorem downloadOptions_noFetch (env : Env) (st : TickerState)
    (date : Option Int) (proxy : Option PVal) (h : st.options ≠ []) :
    downloadOptions env st date proxy = (selectBatch st date, st, []) := by
  unfold downloadOptions
  rw [if_neg]
  simp [List.isEmpty_eq_false, h]

/-- With a non-empty batch list, `options()` is a pure cache read. -/
theorem optionsOp_noFetch (env : Env) (st : TickerState) (proxy : Option PVal)
    (h : st.options ≠ []) :
    optionsOp env st proxy =
      (Except.ok (st.expirations.map Prod.fst), st, []) := by
  unfold optionsOp
  by_cases he : st.expirations.isEmpty
  · rw [if_pos he, downloadOptions_noFetch env st Option.none proxy h]
    unfold selectBatch
    rw [if_neg (by simp [List.isEmpty_eq_false, h])]
    match hm : st.options.head? with
    | Option.some b => simp
    | Option.none => exact absurd (List.head?_eq_none_iff.mp hm) h
  · rw [if_neg he]

/-! ### Claims -/

/-- **C1.** Claimed: a provider response whose `optionChain.result` list
is empty makes the first options fetch raise a `TickerException` naming
the ticker, never a generic indexing error.  The code instead evaluates
`r['optionChain']['result'][0]` before any emptiness check, so an empty
`result` list escapes as a bare `IndexError` (first two conjuncts, via
`options()` and `option_chain()`); the intended domain error — whose
message names the ticker and embeds the raw response — is only reached
when `result[0]` exists but is falsy (third conjunct). -/
theorem c1_empty_result_list_is_index_error :
    (optionsOp ⟨1700000000, ⟨[]⟩⟩ freshState Option.none).1 =
      Except.error PyErr.indexError ∧
    (optionChain ⟨1700000000, ⟨[]⟩⟩ freshState Option.none Option.none
        Option.none).1 =
      Except.error PyErr.indexError ∧
    (optionsOp ⟨1700000000, ⟨[Option.none]⟩⟩ freshState Option.none).1 =
      Except.error (PyErr.tickerException
        "Options response empty for ticker AAPL: \x7b'optionChain': \x7b'result': [\x7b\x7d]\x7d\x7d") :=
  ⟨rfl, rfl, rfl⟩

/-- **C2.** On a Facade whose Options Cache is populated, requesting an
expiration label that is not a cache key raises the invalid-expiration
`ValueError` immediately: no HTTP request is issued, the state is
untouched, and the message enumerates exactly the cached labels, in
cache (insertion) order. -/
theorem c2_unknown_label_raises_listing_cache (env : Env) (st : TickerState)
    (lbl : String) (proxy : Option PVal) (tz : Option String)
    (hpop : st.expirations ≠ [])
    (habs : lbl ∉ st.expirations.map Prod.fst) :
    optionChain env st (Option.some lbl) proxy tz =
      (Except.error (PyErr.valueError
        ("Expiration `" ++ lbl ++ "` cannot be found. Available expiration are: [" ++
          String.intercalate ", " (st.expirations.map Prod.fst) ++ "]")),
       st, []) := by
  have hfind : st.expirations.find? (fun p => p.1 = lbl) = Option.none := by
    rw [List.find?_eq_none]
    intro p hp
    simp only [decide_eq_true_eq]
    intro hc
    exact habs (hc ▸ List.mem_map_of_mem Prod.fst hp)
  unfold optionChain
  rw [if_neg (by simp [List.isEmpty_eq_false, hpop])]
  simp [hfind, unknownExpirationMsg]

/-- **C2 witness**: the spec's own example — cache
`{"2024-01-19": 1705622400, "2024-02-16": 1708041600}`, request
`"2024-03-15"` — fails listing `2024-01-19, 2024-02-16`. -/
theorem c2_unknown_label_witness :
    optionChain threeExpEnv populatedState (Option.some "2024-03-15")
        Option.none Option.none =
      (Except.error (PyErr.valueError
        ("Expiration `" ++ "2024-03-15" ++ "` cannot be found. Available expiration are: [" ++
          String.intercalate ", " (populatedState.expirations.map Prod.fst) ++ "]")),
       populatedState, []) :=
  c2_unknown_label_raises_listing_cache threeExpEnv populatedState "2024-03-15"
    Option.none Option.none (by decide) (by decide)

/-- **C3.** Once a fetch has succeeded (the retained batch list
`self._options` is non-empty), `options()` and `option_chain()` — with
or without a label — issue no further HTTP request and leave the state
(in particular the Options Cache) unchanged; a second `options()` call
returns the same label sequence with zero requests. -/
theorem c3_populated_facade_never_refetches (env : Env) (st : TickerState)
    (proxy proxy2 : Option PVal) (date : Option String) (tz : Option String)
    (h : st.options ≠ []) :
    (optionsOp env st proxy).2 = (st, []) ∧
    (optionChain env st date proxy tz).2 = (st, []) ∧
    optionsOp env (optionsOp env st proxy).2.1 proxy2 =
      (Except.ok (st.expirations.map Prod.fst), st, []) := by
  have hops := optionsOp_noFetch env st proxy h
  refine ⟨by rw [hops], ?_, ?_⟩
  · have hsel : selectBatch st Option.none =
        Except.ok (st.options.head (by exact h)) := by
      unfold selectBatch
      rw [if_neg (by simp [List.isEmpty_eq_false, h])]
      rw [List.head?_eq_head]
    have hlbl : ∀ lbl : String,
        (optionChain env st (Option.some lbl) proxy tz).2 = (st, []) := by
      intro lbl
      unfold optionChain
      have hstep :
          (if st.expirations.isEmpty then
            match (downloadOptions env st Option.none Option.none).1 with
            | Except.error e =>
              ((downloadOptions env st Option.none Option.none).2.1,
               (downloadOptions env st Option.none Option.none).2.2,
               Option.some e)
            | Except.ok _ =>
              ((downloadOptions env st Option.none Option.none).2.1,
               (downloadOptions env st Option.none Option.none).2.2,
               (Option.none : Option PyErr))
          else (st, ([] : List Request), (Option.none : Option PyErr))) =
            (st, ([] : List Request), (Option.none : Option PyErr)) := by
        by_cases he : st.expirations.isEmpty
        · rw [if_pos he, downloadOptions_noFetch env st Option.none Option.none h,
            hsel]
        · rw [if_neg he]
      simp only [hstep]
      cases hf : st.expirations.find? (fun p => p.1 = lbl) with
      | none => simp [hf]
      | some p =>
        simp only [hf, downloadOptions_noFetch env st (Option.some p.2) proxy h]
        cases selectBatch st (Option.some p.2) <;> simp
    match date with
    | Option.none =>
      unfold optionChain
      rw [downloadOptions_noFetch env st Option.none proxy h]
      cases selectBatch st Option.none <;> rfl
    | Option.some lbl => exact hlbl lbl
  · rw [hops]
    exact optionsOp_noFetch env st proxy2 h

/-- **C3 witness**: on the populated sample Facade, both operations are
pure reads and the repeated `options()` call returns the cached label
sequence. -/
theorem c3_populated_facade_witness :
    (optionsOp threeExpEnv populatedState Option.none).2 =
      (populatedState, []) ∧
    (optionChain threeExpEnv populatedState (Option.some "2024-01-19")
        Option.none Option.none).2 = (populatedState, []) ∧
    optionsOp threeExpEnv
        (optionsOp threeExpEnv populatedState Option.none).2.1 Option.none =
      (Except.ok (populatedState.expirations.map Prod.fst),
       populatedState, []) :=
  c3_populated_facade_never_refetches threeExpEnv populatedState Option.none
    Option.none (Option.some "2024-01-19") Option.none (by decide)

/-- **C4.** On a populated Facade, `option_chain()` with no label and
`option_chain(lbl)` for the first cache entry's label return the same
(calls, puts) table pair: the default call reads `self._options[0]` and
the labelled call resolves the first cache value, whose index among the
cache's values is 0, so both build their tables from the same batch. -/
theorem c4_default_equals_first_label (env : Env) (st : TickerState)
    (proxy : Option PVal) (tz : Option String) (lbl : String) (v : Int)
    (rest : List (String × Int)) (hopt : st.options ≠ [])
    (hexp : st.expirations = (lbl, v) :: rest) :
    (optionChain env st Option.none proxy tz).1 =
      (optionChain env st (Option.some lbl) proxy tz).1 := by
  obtain ⟨b, t, hbt⟩ := List.exists_cons_of_ne_nil hopt
  have hsel0 : selectBatch st Option.none = Except.ok b := by
    simp [selectBatch, hbt]
  have hselv : selectBatch st (Option.some v) = Except.ok b := by
    simp [selectBatch, hbt, hexp, List.indexOf_cons_self]
  have hne : st.expirations.isEmpty = false := by simp [hexp]
  have hfind : st.expirations.find? (fun p => p.1 = lbl) =
      Option.some (lbl, v) := by
    rw [hexp]
    exact List.find?_cons_of_pos rest (by simp)
  unfold optionChain
  rw [downloadOptions_noFetch env st Option.none proxy hopt, hsel0]
  simp only [hne, Bool.false_eq_true, if_false, hfind,
    downloadOptions_noFetch env st (Option.some (lbl, v).2) proxy hopt, hselv]

/-- **C4 witness**: on the populated sample Facade, the default chain
equals the chain requested for the first cached label `2024-01-19`. -/
theorem c4_default_equals_first_label_witness :
    (optionChain threeExpEnv populatedState Option.none Option.none
        Option.none).1 =
      (optionChain threeExpEnv populatedState (Option.some "2024-01-19")
        Option.none Option.none).1 :=
  c4_default_equals_first_label threeExpEnv populatedState Option.none
    Option.none "2024-01-19" 1705622400
    [("2024-02-16", 1708041600)] (by decide) rfl

/-- Every key occurring in some record of `opt` (or already in the
accumulator) ends up in the DataFrame's column index. -/
theorem mem_dfColumns_aux (opt : List Record) :
    ∀ (acc : List String) (x : String),
      (x ∈ acc ∨ ∃ r ∈ opt, x ∈ r.map Prod.fst) →
      x ∈ opt.foldl (fun acc r =>
        acc ++ ((r.map Prod.fst).filter (fun k => ¬ acc.contains k))) acc := by
  induction opt with
  | nil =>
    intro acc x h
    simpa using h
  | cons r rs ih =>
    intro acc x h
    rw [List.foldl_cons]
    apply ih
    rcases h with hacc | ⟨r', hr', hx⟩
    · exact Or.inl (List.mem_append_left _ hacc)
    · rcases List.mem_cons.mp hr' with hr | hr

      · subst hr
        by_cases hc : x ∈ acc
        · exact Or.inl (List.mem_append_left _ hc)
        · refine Or.inl (List.mem_append_right _ ?_)
          refine List.mem_filter.mpr ⟨hx, ?_⟩
          simpa using hc
      · exact Or.inr ⟨r', hr, hx⟩

/-- A column absent from the DataFrame's column index is absent from
every record, so its cell is null even before the reindex. -/
theorem cell_eq_none_of_not_mem_dfColumns (opt : List Record) (r : Record)
    (c : String) (hr : r ∈ opt) (hc : c ∉ dfColumns opt) :
    cell r c = Option.none := by
  cases hf : r.find? (fun p => p.1 = c) with
  | none => simp [cell, hf]
  | some p =>
    exfalso
    apply hc
    have hp := List.find?_some hf
    have hmem := List.mem_of_find?_eq_some hf
    have hpc : p.1 = c := by simpa using hp
    exact mem_dfColumns_aux opt [] c
      (Or.inr ⟨r, hr, hpc ▸ List.mem_map_of_mem Prod.fst hmem⟩)

/-- **C8.** The table builder maps each input record to a row over
exactly the fixed 14 columns in fixed order: each cell is the record's
value at that column (transformed for `lastTradeDate`), so fields
absent from a record are null cells, fields outside the 14 columns are
dropped, rows are in input order, and no row is dropped or added. -/
theorem c8_fixed_projection (opt : List Record) (tz : Option String) :
    options2df opt tz =
      opt.map (fun r =>
        fixedColumns.map (fun c => transformCell tz c (cell r c))) ∧
    (options2df opt tz).length = opt.length ∧
    fixedColumns.length = 14 ∧
    ∀ (tz' : Option String) (c : String),
      transformCell tz' c Option.none = Option.none := by
  have htrans : ∀ (tz' : Option String) (c : String),
      transformCell tz' c Option.none = Option.none := by
    intro tz' c
    unfold transformCell
    split
    · cases tz' <;> rfl
    · rfl
  have hmain : options2df opt tz =
      opt.map (fun r =>
        fixedColumns.map (fun c => transformCell tz c (cell r c))) := by
    unfold options2df
    apply List.map_congr_left
    intro r hr
    apply List.map_congr_left
    intro c _
    by_cases hc : (dfColumns opt).contains c
    · rw [if_pos hc]
    · rw [if_neg hc]
      rw [cell_eq_none_of_not_mem_dfColumns opt r c hr (by simpa using hc)]
  exact ⟨hmain, by rw [hmain]; simp, rfl, htrans⟩

/-- **C9.** The `lastTradeDate` conversion is lossless (the epoch value
is recoverable from the produced timestamp), attaches the supplied
timezone exactly when one is given (staying naive otherwise), and is
order-preserving across rows. -/
theorem c9_lastTradeDate_roundtrip :
    (∀ (t : Int) (tz : Option String),
      tsEpochOf (transformCell tz "lastTradeDate" (Option.some (Val.int t))) =
        Option.some t) ∧
    (∀ (t : Int) (z : String),
      transformCell (Option.some z) "lastTradeDate"
          (Option.some (Val.int t)) = Option.some (Val.tsTz t z)) ∧
    (∀ t : Int,
      transformCell Option.none "lastTradeDate" (Option.some (Val.int t)) =
        Option.some (Val.tsNaive t)) ∧
    (∀ (t₁ t₂ : Int) (tz : Option String), t₁ ≤ t₂ →
      tsLe (transformCell tz "lastTradeDate" (Option.some (Val.int t₁)))
        (transformCell tz "lastTradeDate" (Option.some (Val.int t₂))) = true) := by
  refine ⟨?_, fun t z => rfl, fun t => rfl, ?_⟩
  · intro t tz
    cases tz <;> rfl
  · intro t₁ t₂ tz h
    cases tz <;>
      simp [tsLe, tsEpochOf, transformCell, toDatetimeCell, tzLocalizeCell, h]

/-- **C9 witness**: epochs 1705000000 ≤ 1707000000, localized to
`US/Eastern`, compare in converted order. -/
theorem c9_lastTradeDate_witness :
    tsLe (transformCell (Option.some "US/Eastern") "lastTradeDate"
        (Option.some (Val.int 1705000000)))
      (transformCell (Option.some "US/Eastern") "lastTradeDate"
        (Option.some (Val.int 1707000000))) = true :=
  c9_lastTradeDate_roundtrip.2.2.2 1705000000 1707000000
    (Option.some "US/Eastern") (by decide)

/-- When the fetch branch runs (empty batch list), exactly one GET is
issued, carrying the normalized proxies mapping. -/
theorem downloadOptions_fetch_requests (env : Env) (st : TickerState)
    (date : Option Int) (proxy : Option PVal) (h : st.options = []) :
    (downloadOptions env st date proxy).2.2 =
      [⟨buildOptionsUrl st, normalizeProxy proxy⟩] := by
  unfold downloadOptions
  rw [if_pos (by simp [h])]
  rcases hro : env.resp.result.head? with _ | ro
  · rfl
  · cases ro <;> rfl

/-- **C10.** Proxy normalization: a bare URL string and a mapping
carrying an `"https"` key are both normalized to `{"https": <url>}`,
and that is exactly the proxies mapping handed to `http.get` by the
fetch. -/
theorem c10_proxy_normalization (env : Env) (st : TickerState)
    (s u : String) (es : List (String × String))
    (hfetch : st.options = [])
    (hes : es.find? (fun q => q.1 = "https") = Option.some ("https", u)) :
    normalizeProxy (Option.some (PVal.str s)) =
      ProxyConf.https (PVal.str s) ∧
    normalizeProxy (Option.some (PVal.dict es)) =
      ProxyConf.https (PVal.str u) ∧
    ((downloadOptions env st Option.none
        (Option.some (PVal.str s))).2.2).map Request.proxies =
      [ProxyConf.https (PVal.str s)] ∧
    ((downloadOptions env st Option.none
        (Option.some (PVal.dict es))).2.2).map Request.proxies =
      [ProxyConf.https (PVal.str u)] := by
  have hdict : normalizeProxy (Option.some (PVal.dict es)) =
      ProxyConf.https (PVal.str u) := by
    simp only [normalizeProxy, hes]
  refine ⟨rfl, hdict, ?_, ?_⟩
  · rw [downloadOptions_fetch_requests env st Option.none
      (Option.some (PVal.str s)) hfetch]
    rfl
  · rw [downloadOptions_fetch_requests env st Option.none
      (Option.some (PVal.dict es)) hfetch]
    simp [hdict]

/-- **C10 witness**: a bare URL and the mapping
`{"https": "http://proxy:8080"}` both reach the HTTP layer as
`{"https": "http://proxy:8080"}`. -/
theorem c10_proxy_normalization_witness :
    normalizeProxy (Option.some (PVal.str "http://proxy:8080")) =
      ProxyConf.https (PVal.str "http://proxy:8080") ∧
    normalizeProxy (Option.some
        (PVal.dict [("https", "http://proxy:8080")])) =
      ProxyConf.https (PVal.str "http://proxy:8080") ∧
    ((downloadOptions threeExpEnv freshState Option.none
        (Option.some (PVal.str "http://proxy:8080"))).2.2).map
        Request.proxies =
      [ProxyConf.https (PVal.str "http://proxy:8080")] ∧
    ((downloadOptions threeExpEnv freshState Option.none
        (Option.some (PVal.dict [("https", "http://proxy:8080")]))).2.2).map
        Request.proxies =
      [ProxyConf.https (PVal.str "http://proxy:8080")] :=
  c10_proxy_normalization threeExpEnv freshState "http://proxy:8080"
    "http://proxy:8080" [("https", "http://proxy:8080")] rfl (by decide)

/-- Unfolding the population loop one provider expiration at a time. -/
theorem populateExpirations_cons (now e : Int) (ds : List Int)
    (init : List (String × Int)) :
    populateExpirations now (e :: ds) init =
      populateExpirations now ds
        (if tooFar now e then init else dictInsert init (epochToLabel e) e) :=
  rfl

/-- Dict assignment on the key level: an existing key keeps the key
sequence unchanged, a fresh key is appended. -/
theorem dictInsert_keys (d : List (String × Int)) (k : String) (v : Int) :
    (dictInsert d k v).map Prod.fst =
      if k ∈ d.map Prod.fst then d.map Prod.fst
      else d.map Prod.fst ++ [k] := by
  have hiff : (d.any (fun p => p.1 = k) = true) ↔ k ∈ d.map Prod.fst := by
    rw [List.any_eq_true]
    constructor
    · rintro ⟨p, hp, he⟩
      exact (by simpa using he : p.1 = k) ▸ List.mem_map_of_mem Prod.fst hp
    · intro hm
      obtain ⟨p, hp, he⟩ := List.mem_map.mp hm
      exact ⟨p, hp, by simpa using he⟩
  unfold dictInsert
  by_cases h : k ∈ d.map Prod.fst
  · rw [if_pos (hiff.mpr h), if_pos h, List.map_map]
    apply List.map_congr_left
    intro p _
    by_cases hpk : p.1 = k
    · simp [hpk]
    · simp [hpk]
  · rw [if_neg (fun hc => h (hiff.mp hc)), if_neg h]
    simp

/-- Every entry of an updated dict is an old entry or the assigned
pair. -/
theorem mem_dictInsert (d : List (String × Int)) (k : String) (v : Int)
    (x : String × Int) (hx : x ∈ dictInsert d k v) : x ∈ d ∨ x = (k, v) := by
  unfold dictInsert at hx
  by_cases h : d.any (fun p => p.1 = k) = true
  · rw [if_pos h] at hx
    obtain ⟨p, hp, he⟩ := List.mem_map.mp hx
    by_cases hpk : p.1 = k
    · right
      rw [← he]
      simp [hpk]
    · left
      rw [← he]
      simpa [hpk] using hp
  · rw [if_neg h] at hx
    rcases List.mem_append.mp hx with h1 | h1
    · exact Or.inl h1
    · exact Or.inr (by simpa using h1)

/-- Every cache entry after population is an initial entry or comes
from a retained (not too-far) provider expiration, keyed by its date
label. -/
theorem mem_populateExpirations (now : Int) (ds : List Int) :
    ∀ (init : List (String × Int)) (l : String) (v : Int),
      (l, v) ∈ populateExpirations now ds init →
      (l, v) ∈ init ∨
        (v ∈ ds ∧ tooFar now v = false ∧ l = epochToLabel v) := by
  induction ds with
  | nil =>
    intro init l v h
    exact Or.inl (by simpa [populateExpirations] using h)
  | cons e ds ih =>
    intro init l v h
    rw [populateExpirations_cons] at h
    cases hf : tooFar now e with
    | true =>
      rw [hf] at h
      simp only [if_true] at h
      rcases ih init l v h with hin | ⟨hv, hvf, hl⟩
      · exact Or.inl hin
      · exact Or.inr ⟨List.mem_cons_of_mem e hv, hvf, hl⟩
    | false =>
      rw [hf] at h
      simp only [Bool.false_eq_true, if_false] at h
      rcases ih _ l v h with hin | ⟨hv, hvf, hl⟩
      · rcases mem_dictInsert init (epochToLabel e) e (l, v) hin with hd | he
        · exact Or.inl hd
        · have h1 : l = epochToLabel e := congrArg Prod.fst he
          have h2 : v = e := congrArg Prod.snd he
          exact Or.inr ⟨h2 ▸ List.mem_cons_self e ds, by rw [h2, hf],
            by rw [h1, h2]⟩
      · exact Or.inr ⟨List.mem_cons_of_mem e hv, hvf, hl⟩

/-- Shape of the cache's key sequence after population: the initial
keys followed by a duplicate-free subsequence of the retained
expirations' labels that covers every retained expiration's label. -/
theorem populateExpirations_keys (now : Int) (ds : List Int) :
    ∀ init : List (String × Int), (init.map Prod.fst).Nodup →
      ∃ t : List String,
        (populateExpirations now ds init).map Prod.fst =
          init.map Prod.fst ++ t ∧
        t.Sublist ((ds.filter (fun e => tooFar now e = false)).map
          epochToLabel) ∧
        (init.map Prod.fst ++ t).Nodup ∧
        ∀ e ∈ ds, tooFar now e = false →
          epochToLabel e ∈ init.map Prod.fst ++ t := by
  induction ds with
  | nil =>
    intro init hinit
    exact ⟨[], by simp [populateExpirations], by simp,
      by simpa using hinit, by simp⟩
  | cons e ds ih =>
    intro init hinit
    cases hf : tooFar now e with
    | true =>
      obtain ⟨t, h1, h2, h3, h4⟩ := ih init hinit
      have hfil : (e :: ds).filter (fun x => tooFar now x = false) =
          ds.filter (fun x => tooFar now x = false) := by
        simp [hf]
      refine ⟨t, ?_, ?_, h3, ?_⟩
      · rw [populateExpirations_cons, hf, if_pos rfl]
        exact h1
      · rw [hfil]
        exact h2
      · intro x hx hxf
        rcases List.mem_cons.mp hx with rfl | hx'
        · rw [hf] at hxf
          exact absurd hxf (by simp)
        · exact h4 x hx' hxf
    | false =>
      have hfil : (e :: ds).filter (fun x => tooFar now x = false) =
          e :: ds.filter (fun x => tooFar now x = false) := by
        simp [hf]
      have hpop : populateExpirations now (e :: ds) init =
          populateExpirations now ds (dictInsert init (epochToLabel e) e) := by
        rw [populateExpirations_cons, hf]
        simp
      by_cases hk : epochToLabel e ∈ init.map Prod.fst
      · have hkeys : (dictInsert init (epochToLabel e) e).map Prod.fst =
            init.map Prod.fst := by
          rw [dictInsert_keys, if_pos hk]
        obtain ⟨t, h1, h2, h3, h4⟩ := ih _ (hkeys ▸ hinit)
        rw [hkeys] at h1 h3 h4
        refine ⟨t, ?_, ?_, h3, ?_⟩
        · rw [hpop]
          exact h1
        · rw [hfil, List.map_cons]
          exact List.Sublist.cons _ h2
        · intro x hx hxf
          rcases List.mem_cons.mp hx with rfl | hx'
          · exact List.mem_append_left _ hk
          · exact h4 x hx' hxf
      · have hins : dictInsert init (epochToLabel e) e =
            init ++ [(epochToLabel e, e)] := by
          unfold dictInsert
          rw [if_neg]
          intro hc
          obtain ⟨p, hp, he⟩ := List.any_eq_true.mp hc
          exact hk ((by simpa using he : p.1 = epochToLabel e) ▸
            List.mem_map_of_mem Prod.fst hp)
        have hkeys : (dictInsert init (epochToLabel e) e).map Prod.fst =
            init.map Prod.fst ++ [epochToLabel e] := by
          rw [hins]
          simp
        have hnodup' : ((dictInsert init (epochToLabel e) e).map
            Prod.fst).Nodup := by
          rw [hkeys]
          exact List.Nodup.append hinit (List.nodup_singleton _)
            (List.disjoint_singleton.mpr hk)
        obtain ⟨t', h1, h2, h3, h4⟩ := ih _ hnodup'
        rw [hkeys] at h1 h3 h4
        have hre : (init.map Prod.fst ++ [epochToLabel e]) ++ t' =
            init.map Prod.fst ++ (epochToLabel e :: t') := by
          rw [List.append_assoc]
          rfl
        refine ⟨epochToLabel e :: t', ?_, ?_, ?_, ?_⟩
        · rw [hpop, h1, hre]
        · rw [hfil, List.map_cons]
          exact List.Sublist.cons₂ _ h2
        · rw [← hre]
          exact h3
        · intro x hx hxf
          rcases List.mem_cons.mp hx with rfl | hx'
          · exact List.mem_append_right _ (List.mem_cons_self _ _)
          · have := h4 x hx' hxf
            rwa [hre] at this

/-- With an empty batch list and a well-shaped single-element provider
result, `_download_options` performs its one fetch: it issues one GET,
populates the Options Cache, retains the batch list, then selects. -/
theorem downloadOptions_fetch (env : Env) (st : TickerState) (ds : List Int)
    (bs : List Batch) (date : Option Int) (proxy : Option PVal)
    (hopts : st.options = [])
    (henv : env.resp = ⟨[Option.some ⟨ds, bs⟩]⟩) :
    downloadOptions env st date proxy =
      (selectBatch
        { st with
          expirations := populateExpirations env.now ds st.expirations,
          options := bs } date,
       { st with
         expirations := populateExpirations env.now ds st.expirations,
         options := bs },
       [⟨buildOptionsUrl st, normalizeProxy proxy⟩]) := by
  unfold downloadOptions
  rw [if_pos (by simp [hopts]), henv]
  rfl

/-- On a non-empty batch list, the default selection is the head
batch. -/
theorem selectBatch_default (st : TickerState) (h : st.options ≠ []) :
    selectBatch st Option.none = Except.ok (st.options.head h) := by
  unfold selectBatch
  rw [if_neg (by simp [List.isEmpty_eq_false, h])]
  rw [List.head?_eq_head]

/-- **C6.** During cache population, every provider expiration lying
more than 3 years (3*365 days) past the clock is kept out of the
Options Cache, and every other expiration's `YYYY-MM-DD` label is
entered as a cache key; every cache entry is a retained provider
expiration keyed by its own label. -/
theorem c6_three_year_filter (env : Env) (st : TickerState) (ds : List Int)
    (bs : List Batch) (hexp : st.expirations = []) (hopts : st.options = [])
    (henv : env.resp = ⟨[Option.some ⟨ds, bs⟩]⟩) :
    (∀ (l : String) (v : Int),
      (l, v) ∈ ((downloadOptions env st Option.none Option.none).2.1).expirations →
      v ∈ ds ∧ tooFar env.now v = false ∧ l = epochToLabel v) ∧
    (∀ e ∈ ds, tooFar env.now e = false →
      epochToLabel e ∈
        (((downloadOptions env st Option.none Option.none).2.1).expirations).map
          Prod.fst) ∧
    (∀ e ∈ ds, tooFar env.now e = true →
      ∀ l : String,
        (l, e) ∉ ((downloadOptions env st Option.none Option.none).2.1).expirations) := by
  have hdl : ((downloadOptions env st Option.none Option.none).2.1).expirations =
      populateExpirations env.now ds [] := by
    rw [downloadOptions_fetch env st ds bs Option.none Option.none hopts henv]
    simp [hexp]
  rw [hdl]
  have hmem : ∀ (l : String) (v : Int),
      (l, v) ∈ populateExpirations env.now ds [] →
      v ∈ ds ∧ tooFar env.now v = false ∧ l = epochToLabel v := by
    intro l v h
    rcases mem_populateExpirations env.now ds [] l v h with hin | hgood
    · exact absurd hin (List.not_mem_nil _)
    · exact hgood
  refine ⟨hmem, ?_, ?_⟩
  · intro e he hef
    obtain ⟨t, h1, _, _, h4⟩ :=
      populateExpirations_keys env.now ds [] (by simp)
    rw [h1]
    exact h4 e he hef
  · intro e he hef l hmem'
    have := (hmem l e hmem').2.1
    rw [hef] at this
    exact Bool.true_eq_false.mp this

/-- **C6 witness**: with clock 0 and expirations `[0, 86400, 97200000]`,
the near pair is entered under its label and the >3-year expiration
`97200000` appears under no key. -/
theorem c6_three_year_filter_witness :
    ((0 : Int) ∈ [(0 : Int), 86400, 97200000] ∧ tooFar 0 0 = false ∧
      "1970-01-01" = epochToLabel 0) ∧
    epochToLabel 86400 ∈
      (((downloadOptions threeExpEnv freshState Option.none
        Option.none).2.1).expirations).map Prod.fst ∧
    ∀ l : String,
      (l, (97200000 : Int)) ∉
        ((downloadOptions threeExpEnv freshState Option.none
          Option.none).2.1).expirations := by
  have h := c6_three_year_filter threeExpEnv freshState
    [0, 86400, 97200000] [batch1, batch2, batch3] rfl rfl rfl
  exact ⟨h.1 "1970-01-01" 0 (by decide),
    h.2.1 86400 (by decide) (by decide),
    fun l => h.2.2 97200000 (by decide) (by decide) l⟩

/-- **C7.** After a successful populate, `options()` returns the cache
keys: a duplicate-free label sequence that is a subsequence of the
retained expirations' labels in provider order and covers every
retained expiration's label; calling `options()` again returns the same
sequence with zero further requests. -/
theorem c7_label_order (env : Env) (st : TickerState) (ds : List Int)
    (bs : List Batch) (proxy proxy2 : Option PVal)
    (hexp : st.expirations = []) (hopts : st.options = [])
    (henv : env.resp = ⟨[Option.some ⟨ds, bs⟩]⟩) (hbs : bs ≠ []) :
    (optionsOp env st proxy).1 =
      Except.ok ((populateExpirations env.now ds []).map Prod.fst) ∧
    ((populateExpirations env.now ds []).map Prod.fst).Nodup ∧
    ((populateExpirations env.now ds []).map Prod.fst).Sublist
      ((ds.filter (fun e => tooFar env.now e = false)).map epochToLabel) ∧
    (∀ e ∈ ds, tooFar env.now e = false →
      epochToLabel e ∈ (populateExpirations env.now ds []).map Prod.fst) ∧
    optionsOp env (optionsOp env st proxy).2.1 proxy2 =
      (Except.ok ((populateExpirations env.now ds []).map Prod.fst),
       (optionsOp env st proxy).2.1, []) := by
  obtain ⟨t, h1, h2, h3, h4⟩ := populateExpirations_keys env.now ds [] (by simp)
  simp only [List.map_nil, List.nil_append] at h1 h2 h3 h4
  have hfetch := downloadOptions_fetch env st ds bs Option.none proxy hopts henv
  have hops : optionsOp env st proxy =
      (Except.ok ((populateExpirations env.now ds []).map Prod.fst),
       { st with expirations := populateExpirations env.now ds [],
                 options := bs },
       [⟨buildOptionsUrl st, normalizeProxy proxy⟩]) := by
    unfold optionsOp
    rw [if_pos (by simp [hexp]), hfetch, hexp]
    rw [selectBatch_default _ (show
      ({ st with expirations := populateExpirations env.now ds [],
                 options := bs } : TickerState).options ≠ [] from hbs)]
  refine ⟨by rw [hops], by rw [h1]; exact h3, by rw [h1]; exact h2,
    fun e he hef => by rw [h1]; exact h4 e he hef, ?_⟩
  rw [hops]
  exact optionsOp_noFetch env _ proxy2 hbs

/-- **C7 witness**: concrete run over `[0, 86400, 97200000]` with clock
0 — the labels come back as `["1970-01-01", "1970-01-02"]`, duplicate
free, in provider order, and the repeated call is a pure cache hit. -/
theorem c7_label_order_witness :
    (optionsOp threeExpEnv freshState Option.none).1 =
      Except.ok ((populateExpirations threeExpEnv.now
        [0, 86400, 97200000] []).map Prod.fst) ∧
    ((populateExpirations threeExpEnv.now
      [0, 86400, 97200000] []).map Prod.fst).Nodup ∧
    ((populateExpirations threeExpEnv.now
      [0, 86400, 97200000] []).map Prod.fst).Sublist
      (([(0 : Int), 86400, 97200000].filter
        (fun e => tooFar threeExpEnv.now e = false)).map epochToLabel) ∧
    (∀ e ∈ [(0 : Int), 86400, 97200000], tooFar threeExpEnv.now e = false →
      epochToLabel e ∈ (populateExpirations threeExpEnv.now
        [0, 86400, 97200000] []).map Prod.fst) ∧
    optionsOp threeExpEnv (optionsOp threeExpEnv freshState Option.none).2.1
        Option.none =
      (Except.ok ((populateExpirations threeExpEnv.now
        [0, 86400, 97200000] []).map Prod.fst),
       (optionsOp threeExpEnv freshState Option.none).2.1, []) :=
  c7_label_order threeExpEnv freshState [0, 86400, 97200000]
    [batch1, batch2, batch3] Option.none Option.none rfl rfl rfl
    (by decide)

/-- Population ignores a block of expirations that are all beyond the
3-year horizon. -/
theorem populateExpirations_all_far (now : Int) :
    ∀ (ys : List Int) (init : List (String × Int)),
      (∀ e ∈ ys, tooFar now e = true) →
      populateExpirations now ys init = init := by
  intro ys
  induction ys with
  | nil => intro init _; rfl
  | cons e ys ih =>
    intro init h
    rw [populateExpirations_cons, h e (List.mem_cons_self e ys), if_pos rfl]
    exact ih init (fun x hx => h x (List.mem_cons_of_mem e hx))

/-- Population over retained expirations with pairwise-distinct labels,
none of which collides with the initial cache, appends one entry per
expiration in provider order. -/
theorem populateExpirations_all_fresh (now : Int) :
    ∀ (xs : List Int) (init : List (String × Int)),
      (∀ e ∈ xs, tooFar now e = false) →
      (∀ e ∈ xs, epochToLabel e ∉ init.map Prod.fst) →
      (xs.map epochToLabel).Nodup →
      populateExpirations now xs init =
        init ++ xs.map (fun e => (epochToLabel e, e)) := by
  intro xs
  induction xs with
  | nil => intro init _ _ _; simp [populateExpirations]
  | cons e xs ih =>
    intro init hall hdis hnd
    have hhead := (List.nodup_cons.mp hnd).1
    have hins : dictInsert init (epochToLabel e) e =
        init ++ [(epochToLabel e, e)] := by
      unfold dictInsert
      rw [if_neg]
      intro hc
      obtain ⟨p, hp, he⟩ := List.any_eq_true.mp hc
      exact hdis e (List.mem_cons_self e xs)
        ((by simpa using he : p.1 = epochToLabel e) ▸
          List.mem_map_of_mem Prod.fst hp)
    have hall' : ∀ x ∈ xs, tooFar now x = false :=
      fun x hx => hall x (List.mem_cons_of_mem e hx)
    have hdis' : ∀ x ∈ xs,
        epochToLabel x ∉ (init ++ [(epochToLabel e, e)]).map Prod.fst := by
      intro x hx hmem
      rw [List.map_append] at hmem
      rcases List.mem_append.mp hmem with hm | hm
      · exact hdis x (List.mem_cons_of_mem e hx) hm
      · have hxe : epochToLabel x = epochToLabel e := by simpa using hm
        exact hhead (hxe ▸ List.mem_map_of_mem epochToLabel hx)
    rw [populateExpirations_cons, hall e (List.mem_cons_self e xs)]
    simp only [Bool.false_eq_true, if_false]
    rw [hins, ih _ hall' hdis' (List.nodup_cons.mp hnd).2, List.append_assoc]
    rfl

/-- Population distributes over list concatenation. -/
theorem populateExpirations_append (now : Int) (xs ys : List Int)
    (init : List (String × Int)) :
    populateExpirations now (xs ++ ys) init =
      populateExpirations now ys (populateExpirations now xs init) :=
  List.foldl_append _ _ xs ys

/-- In a label-keyed association list built from expirations with
pairwise-distinct labels, looking up the `j`-th expiration's label
finds exactly the `j`-th entry. -/
theorem find?_label_map :
    ∀ (xs : List Int), (xs.map epochToLabel).Nodup →
      ∀ (j : Nat) (hj : j < xs.length),
        (xs.map (fun e => (epochToLabel e, e))).find?
            (fun p => p.1 = epochToLabel (xs.get ⟨j, hj⟩)) =
          Option.some (epochToLabel (xs.get ⟨j, hj⟩), xs.get ⟨j, hj⟩) := by
  intro xs
  induction xs with
  | nil =>
    intro _ j hj
    exact absurd hj (by simp)
  | cons x xs ih =>
    intro hnd j hj
    cases j with
    | zero =>
      rw [List.map_cons]
      exact List.find?_cons_of_pos _ (by simp)
    | succ j =>
      have hj' : j < xs.length := Nat.lt_of_succ_lt_succ hj
      have hget : (x :: xs).get ⟨j + 1, hj⟩ = xs.get ⟨j, hj'⟩ := rfl
      rw [List.map_cons, hget, List.find?_cons_of_neg]
      · exact ih (List.nodup_cons.mp hnd).2 j hj'
      · simp only [decide_eq_true_eq]
        intro heq
        exact (List.nodup_cons.mp hnd).1
          (heq ▸ List.mem_map_of_mem epochToLabel (xs.get_mem _ _))

/-- `list.index` finds position `j` whenever no earlier element equals
the `j`-th one (first-occurrence semantics on lists that may repeat
later). -/
theorem indexOf_get_of_ne_prev {α : Type} [DecidableEq α] :
    ∀ (l : List α) (j : Nat) (hj : j < l.length),
      (∀ (i : Nat) (hi : i < j),
        l.get ⟨i, Nat.lt_trans hi hj⟩ ≠ l.get ⟨j, hj⟩) →
      l.indexOf (l.get ⟨j, hj⟩) = j := by
  intro l
  induction l with
  | nil =>
    intro j hj
    exact absurd hj (by simp)
  | cons x xs ih =>
    intro j hj hprev
    cases j with
    | zero => exact List.indexOf_cons_self x xs
    | succ j =>
      have hj' : j < xs.length := Nat.lt_of_succ_lt_succ hj
      have hx : x ≠ xs.get ⟨j, hj'⟩ := hprev 0 (Nat.succ_pos j)
      show List.indexOf (xs.get ⟨j, hj'⟩) (x :: xs) = j + 1
      rw [List.indexOf_cons, beq_false_of_ne hx, cond_false]
      exact congrArg Nat.succ
        (ih j hj' (fun i hi => hprev (i + 1) (Nat.succ_lt_succ hi)))

/-- **C5 counterexample.** Provider payload with clock 0,
`expirationDates = [0, 3600]` (two expirations on the same calendar day
`1970-01-01`) and two distinct batches; the 3-year filter excludes
nothing, so the claim's premise holds.  The resulting cache maps
`"1970-01-01"` to identifier 3600, whose expiration occupies position 1
of `expirationDates`; yet `option_chain("1970-01-01")` builds its
tables from the batch at position 0, which differs from the batch at
position 1 — the positional lookup does not select the batch belonging
to the label's expiration. -/
theorem c5_positional_lookup_cex :
    sameDayEnv.resp.result =
      [Option.some ⟨[0, 3600], [batch1, batch2]⟩] ∧
    (∀ e ∈ [(0 : Int), 3600], tooFar sameDayEnv.now e = false) ∧
    ((downloadOptions sameDayEnv freshState Option.none
        Option.none).2.1).expirations = [("1970-01-01", 3600)] ∧
    List.indexOf (3600 : Int) [(0 : Int), 3600] = 1 ∧
    (optionChain sameDayEnv freshState (Option.some "1970-01-01")
        Option.none Option.none).1 =
      Except.ok (options2df batch1.calls Option.none,
        options2df batch1.puts Option.none) ∧
    options2df batch1.calls Option.none ≠
      options2df batch2.calls Option.none :=
  ⟨rfl, by decide, by decide, by decide, rfl, by decide⟩

/-- On a populated Facade, `option_chain(lbl)` resolves the label via
the cache and returns the tables of whatever batch the positional
selection yields. -/
theorem optionChain_lookup (env : Env) (st : TickerState) (lbl : String)
    (v : Int) (proxy : Option PVal) (tz : Option String) (b : Batch)
    (hne : st.expirations ≠ [])
    (hfind : st.expirations.find? (fun p => p.1 = lbl) =
      Option.some (lbl, v))
    (hsel : selectBatch st (Option.some v) = Except.ok b) :
    (optionChain env st (Option.some lbl) proxy tz).1 =
      Except.ok (options2df b.calls tz, options2df b.puts tz) := by
  have hopt : st.options ≠ [] := by
    intro hc
    unfold selectBatch at hsel
    rw [if_pos (by simp [hc])] at hsel
    exact Except.noConfusion hsel
  have hie : st.expirations.isEmpty = false := by
    simp [List.isEmpty_eq_false, hne]
  unfold optionChain
  simp only [hie, Bool.false_eq_true, if_false, hfind,
    downloadOptions_noFetch env st (Option.some (lbl, v).2) proxy hopt, hsel]

/-- **C5 (amended).** When the expirations excluded by the 3-year
filter all come after every retained expiration in provider order
(retained = the first `k`), the batch list is parallel to
`expirationDates`, **and the retained expirations have pairwise
distinct date labels**, the positional lookup is correct: for the
`j`-th retained expiration, `option_chain` on its label builds its
tables from batch `j`, and `j` is exactly the position its identifier
occupies in `expirationDates`. -/
theorem c5_positional_lookup_amended (env : Env) (st0 stP : TickerState)
    (ds : List Int) (bs : List Batch) (k j : Nat) (proxy : Option PVal)
    (tz : Option String)
    (hexp : st0.expirations = []) (hopts : st0.options = [])
    (henv : env.resp = ⟨[Option.some ⟨ds, bs⟩]⟩)
    (hstP : stP = (downloadOptions env st0 Option.none Option.none).2.1)
    (h1 : ∀ e ∈ ds.take k, tooFar env.now e = false)
    (h2 : ∀ e ∈ ds.drop k, tooFar env.now e = true)
    (hnd : ((ds.take k).map epochToLabel).Nodup)
    (hjk : j < k) (hjd : j < ds.length) (hjb : j < bs.length) :
    (optionChain env stP
        (Option.some (epochToLabel (ds.get ⟨j, hjd⟩))) proxy tz).1 =
      Except.ok (options2df (bs.get ⟨j, hjb⟩).calls tz,
        options2df (bs.get ⟨j, hjb⟩).puts tz) ∧
    List.indexOf (ds.get ⟨j, hjd⟩) ds = j := by
  have hcache : populateExpirations env.now ds [] =
      (ds.take k).map (fun e => (epochToLabel e, e)) := by
    conv_lhs => rw [← List.take_append_drop k ds]
    rw [populateExpirations_append,
      populateExpirations_all_fresh env.now (ds.take k) [] h1 (by simp) hnd,
      List.nil_append]
    exact populateExpirations_all_far env.now (ds.drop k) _ h2
  have hstP' : stP =
      { st0 with
        expirations := (ds.take k).map (fun e => (epochToLabel e, e)),
        options := bs } := by
    rw [hstP,
      downloadOptions_fetch env st0 ds bs Option.none Option.none hopts henv]
    simp only [hexp, hcache]
  have hj2 : j < (ds.take k).length := by
    rw [List.length_take]
    exact lt_min hjk hjd
  have htake : (ds.take k).get ⟨j, hj2⟩ = ds.get ⟨j, hjd⟩ := by
    simp [List.get_eq_getElem, List.getElem_take]
  have hndv : (ds.take k).Nodup := List.Nodup.of_map _ hnd
  constructor
  · have hfind : stP.expirations.find?
        (fun p => p.1 = epochToLabel (ds.get ⟨j, hjd⟩)) =
        Option.some (epochToLabel (ds.get ⟨j, hjd⟩), ds.get ⟨j, hjd⟩) := by
      rw [hstP']
      have hf := find?_label_map (ds.take k) hnd j hj2
      rw [htake] at hf
      exact hf
    have hne : stP.expirations ≠ [] := by
      rw [hstP']
      intro hc
      have : (ds.take k) = [] := by simpa using hc
      rw [this] at hj2
      exact absurd hj2 (by simp)
    have hob : stP.options = bs := by rw [hstP']
    have hvals : stP.expirations.map Prod.snd = ds.take k := by
      rw [hstP']
      show ((ds.take k).map (fun e => (epochToLabel e, e))).map Prod.snd =
        ds.take k
      rw [List.map_map]
      have hcomp : (Prod.snd ∘ fun e : Int => (epochToLabel e, e)) =
          fun e => e := rfl
      rw [hcomp]
      exact List.map_id' _
    have hmem : ds.get ⟨j, hjd⟩ ∈ ds.take k := by
      rw [← htake]
      exact List.get_mem _ j hj2
    have hidx : (ds.take k).indexOf ds[j] = j := by
      have h0 := List.indexOf_getElem hndv j hj2
      rwa [List.getElem_take] at h0
    have hcon : (ds.take k).contains ds[j] = true := by
      have h0 : ds[j] ∈ ds.take k := by
        have h1' := List.get_mem (ds.take k) j hj2
        rwa [List.get_eq_getElem, List.getElem_take] at h1'
      simpa [List.elem_iff] using h0
    have hsel : selectBatch stP (Option.some (ds.get ⟨j, hjd⟩)) =
        Except.ok (bs.get ⟨j, hjb⟩) := by
      unfold selectBatch
      rw [if_neg (by
        simp only [hob]
        intro hc
        have hbe : bs = [] := by simpa using hc
        rw [hbe] at hjb
        exact absurd hjb (by simp))]
      simp only [hvals, List.get_eq_getElem, hcon, if_true, hidx, hob,
        List.getElem?_eq_getElem hjb]
    exact optionChain_lookup env stP (epochToLabel (ds.get ⟨j, hjd⟩))
      (ds.get ⟨j, hjd⟩) proxy tz (bs.get ⟨j, hjb⟩) hne hfind hsel
  · apply indexOf_get_of_ne_prev
    intro i hi heq
    have hik : i < k := Nat.lt_trans hi hjk
    have hid : i < ds.length := Nat.lt_trans hi hjd
    have hi2 : i < (ds.take k).length := by
      rw [List.length_take]
      exact lt_min hik hid
    have htakei : (ds.take k).get ⟨i, hi2⟩ = ds.get ⟨i, hid⟩ := by
      simp [List.get_eq_getElem, List.getElem_take]
    have hgeq : (ds.take k).get ⟨i, hi2⟩ = (ds.take k).get ⟨j, hj2⟩ := by
      rw [htakei, htake]
      exact heq
    have := (hndv.get_inj_iff.mp hgeq)
    have : i = j := congrArg Fin.val this
    omega

/-- **C5 amended witness**: payload `[0, 86400, 97200000]` (third
expiration excluded by the filter, distinct labels for the retained
two): the label of expiration 1 resolves to batch 1, the position that
identifier occupies in `expirationDates`. -/
theorem c5_positional_lookup_amended_witness :
    (optionChain threeExpEnv
        ((downloadOptions threeExpEnv freshState Option.none
          Option.none).2.1)
        (Option.some (epochToLabel
          ([(0 : Int), 86400, 97200000].get ⟨1, by decide⟩)))
        Option.none Option.none).1 =
      Except.ok
        (options2df (([batch1, batch2, batch3].get ⟨1, by decide⟩)).calls
          Option.none,
         options2df (([batch1, batch2, batch3].get ⟨1, by decide⟩)).puts
          Option.none) ∧
    List.indexOf ([(0 : Int), 86400, 97200000].get ⟨1, by decide⟩)
      [(0 : Int), 86400, 97200000] = 1 :=
  c5_positional_lookup_amended threeExpEnv freshState
    ((downloadOptions threeExpEnv freshState Option.none Option.none).2.1)
    [0, 86400, 97200000] [batch1, batch2, batch3] 2 1 Option.none
    Option.none rfl rfl rfl rfl (by decide) (by decide) (by decide)
    (by decide) (by decide) (by decide)

end YF
